import Mathlib

/-!
Verification of the audio-modem protocol engine (framing, CRC validation,
bit slicing, noise-floor tracking, packet dispatch) against its
natural-language specification.  The definitions below are shallow
embeddings of the Python sources (`emilianoreciver.py`, `afsk_receiver.py`,
`asfk_sender.py`); machine bytes are modelled as `Nat` with explicit
masking where the source masks.
-/

namespace AfskProto

/-- Protocol constants from `emilianoreciver.py` lines 33-36. -/
def START_FLAG_VALUE : Nat := 0x7E

def END_FLAG_VALUE : Nat := 0x7E

def ESCAPE_VALUE : Nat := 0x7D

def ESCAPE_MASK : Nat := 0x20

/-- Default noise floor of `emilianoreciver.py` line 27 (`NOISE_FLOOR = 0.008`). -/
def NOISE_FLOOR : ℚ := 8 / 1000

/-- One shift-and-conditionally-xor round of the CRC inner loop
(`emilianoreciver.py` lines 54-58). -/
def crcStep (crc : Nat) : Nat :=
  if crc &&& 0x8000 ≠ 0 then ((crc <<< 1) ^^^ 0x1021) &&& 0xFFFF
  else (crc <<< 1) &&& 0xFFFF

/-- Folding one data byte into the CRC: xor into the high byte, then
eight inner rounds (`emilianoreciver.py` lines 52-58). -/
def crcByte (crc b : Nat) : Nat := crcStep^[8] (crc ^^^ (b <<< 8))

/-- CRC-16/XMODEM over a byte list, initial value 0x0000
(`emilianoreciver.py` lines 48-59, function `crc16_xmodem`). -/
def crc16_xmodem (data : List Nat) : Nat := data.foldl crcByte 0

/-- The decoded application-facing packet (`emilianoreciver.py` class
`Packet`, lines 61-65). -/
structure Packet where
  data : List Nat
  packet_id : Nat
  packet_type : Nat
deriving DecidableEq, Repr

/-- The `Packet.__init__` constructor: the id and type are masked with
`& 0xFF`, i.e. reduced mod 256 (`emilianoreciver.py` lines 62-65). -/
def Packet.make (data : List Nat) (pid ptype : Nat) : Packet :=
  ⟨data, pid % 256, ptype % 256⟩

/-- Python `bytes.find`: index of the first occurrence of byte `v`,
`none` when absent (Python returns -1). -/
def bfind : List Nat → Nat → Option Nat
  | [], _ => none
  | b :: rest, v => if b = v then some 0 else (bfind rest v).map (· + 1)

/-- The un-stuffing loop of `Packet.decode` (`emilianoreciver.py` lines
93-104): an escape byte consumes the following byte xor-ed with the mask;
a trailing escape with no following byte is malformed (`none`). -/
def unstuff : List Nat → Option (List Nat)
  | [] => some []
  | [b] => if b = ESCAPE_VALUE then none else some [b]
  | b :: c :: rest =>
    if b = ESCAPE_VALUE then
      (unstuff rest).map (fun t => (c ^^^ ESCAPE_MASK) :: t)
    else
      (unstuff (c :: rest)).map (fun t => b :: t)

/-- Python `int.from_bytes(_, byteorder='big')` on a byte list. -/
def beInt (l : List Nat) : Nat := l.foldl (fun a b => a * 256 + b) 0

/-- The validation tail of `Packet.decode` (`emilianoreciver.py` lines
106-127): length guard, CRC comparison against the big-endian trailer,
then header extraction. -/
def validateRegion (region : List Nat) : Option Packet :=
  if region.length < 4 then none
  else
    let payload := region.take (region.length - 2)
    let receivedCrc := beInt (region.drop (region.length - 2))
    if crc16_xmodem payload = receivedCrc then
      some (Packet.make (payload.drop 2) (payload.getD 0 0) (payload.getD 1 0))
    else none

/-- `Packet.decode` (`emilianoreciver.py` lines 67-131): find the start
flag, find the end flag after it, un-stuff the bytes in between, then
validate.  Every failure path returns `none`. -/
def Packet.decode (raw : List Nat) : Option Packet :=
  (bfind raw START_FLAG_VALUE).bind fun s =>
    (bfind (raw.drop (s + 1)) END_FLAG_VALUE).bind fun e =>
      (unstuff ((raw.drop (s + 1)).take e)).bind fun region =>
        validateRegion region

/-- The validation tail with Python's exceptional paths made explicit:
indexing `payload[0]` / `payload[1]` (`emilianoreciver.py` lines 121-122)
would raise `IndexError` when the payload is shorter than two bytes, which
is modelled as `Except.error ()`.  All other operations of the source
cannot raise. -/
def validateRegionE (region : List Nat) : Except Unit (Option Packet) :=
  if region.length < 4 then .ok none
  else
    let payload := region.take (region.length - 2)
    let receivedCrc := beInt (region.drop (region.length - 2))
    if crc16_xmodem payload = receivedCrc then
      if 2 ≤ payload.length then
        .ok (some (Packet.make (payload.drop 2) (payload.getD 0 0) (payload.getD 1 0)))
      else .error ()
    else .ok none

/-- `Packet.decode` with the exceptional paths made explicit; the scan and
un-stuffing phases of the source are index-guarded and cannot raise. -/
def decodeE (raw : List Nat) : Except Unit (Option Packet) :=
  match bfind raw START_FLAG_VALUE with
  | none => .ok none
  | some s =>
    match bfind (raw.drop (s + 1)) END_FLAG_VALUE with
    | none => .ok none
    | some e =>
      match unstuff ((raw.drop (s + 1)).take e) with
      | none => .ok none
      | some region => validateRegionE region

/-- Modelled from the spec: the repository has no frame encoder under
`src/` (only the decoder in `emilianoreciver.py`); byte-stuffing is taken
from spec section 4.6 step 3 and the data-model stuffing rule: any
occurrence of START_FLAG, END_FLAG or ESCAPE is replaced by
`ESCAPE, (byte XOR ESCAPE_MASK)`. -/
def stuff : List Nat → List Nat
  | [] => []
  | b :: rest =>
    if b = START_FLAG_VALUE ∨ b = END_FLAG_VALUE ∨ b = ESCAPE_VALUE then
      ESCAPE_VALUE :: (b ^^^ ESCAPE_MASK) :: stuff rest
    else b :: stuff rest

/-- Modelled from the spec: `encode(packetId, packetType, payload)` of
spec section 4.6 (the repository has no frame encoder under `src/`):
header ++ payload, CRC-16/XMODEM appended as a big-endian 2-byte trailer,
byte-stuffed and wrapped in START_FLAG .. END_FLAG. -/
def encode (pid ptype : Nat) (payload : List Nat) : List Nat :=
  let payloadWithHeader := pid :: ptype :: payload
  let crc := crc16_xmodem payloadWithHeader
  let framed := payloadWithHeader ++ [crc / 256, crc % 256]
  START_FLAG_VALUE :: (stuff framed ++ [END_FLAG_VALUE])

/-- The per-chunk bit decision of `AFSKReceiver._process_audio`
(`emilianoreciver.py` lines 345-349): 1 when the mark band has strictly
more energy, else 0 — including on an exact tie. -/
def bitOfEnergies (markEnergy spaceEnergy : ℚ) : Nat :=
  if markEnergy > spaceEnergy then 1 else 0

/-- The bit-extraction step of one processing cycle
(`emilianoreciver.py` lines 312-349): when the buffer's mean power is
below the noise floor the cycle emits no bits at all; otherwise every
chunk's energy pair is mapped to a bit. -/
def extractBits (signalPower noiseFloor : ℚ) (chunks : List (ℚ × ℚ)) :
    Option (List Nat) :=
  if signalPower < noiseFloor then none
  else some (chunks.map (fun c => bitOfEnergies c.1 c.2))

/-- The three-valued symbol vocabulary of the spec's BitSlicer (spec
section 3, BitSymbol). -/
inductive BitSymbol where
  | mark : BitSymbol
  | space : BitSymbol
  | indeterminate : BitSymbol
deriving DecidableEq, Repr

/-- The code's per-chunk decision read as a BitSymbol (bit 1 is the mark
tone, bit 0 the space tone); the source has no third outcome. -/
def symbolOfEnergies (markEnergy spaceEnergy : ℚ) : BitSymbol :=
  if bitOfEnergies markEnergy spaceEnergy = 1 then .mark else .space

/-- Default noise floor of `afsk_receiver.py` line 22 (`NOISE_FLOOR = 0.003`). -/
def AFSK_NOISE_FLOOR : ℚ := 3 / 1000

/-- The mutable receiver state touched by the noise-floor logic of
`afsk_receiver.py` `_process_audio` (lines 179-219). -/
structure RxState where
  noise_floor : ℚ
  found_signal : Bool
  signal_start_time : ℚ
  last_packet_time : ℚ
deriving DecidableEq, Repr

/-- One pass of the noise-floor logic of `afsk_receiver.py` lines
199-214 at wall time `t` with measured buffer power `power`: signal
acquisition sets `found_signal`; after more than ten seconds of acquired
signal without a packet the floor is reassigned to `power * 0.8`. -/
def floorStep (st : RxState) (t power : ℚ) : RxState :=
  let st1 :=
    if 5 < t - st.last_packet_time ∧ st.noise_floor ≤ power ∧ st.found_signal = false then
      { st with found_signal := true, signal_start_time := t }
    else st
  if st1.found_signal = true ∧ 10 < t - st1.signal_start_time ∧ 10 < t - st1.last_packet_time then
    { st1 with found_signal := false, noise_floor := power * (8 / 10) }
  else st1

/-- The dispatcher state of `emilianoreciver.py`: the contents of the
`recent_packet_data` set of payload hashes (line 193) and the packets
passed to the consumer callback, in order. -/
structure DispatchState where
  recent : List Int
  delivered : List Packet
deriving DecidableEq, Repr

/-- The duplicate-suppression step of `AFSKReceiver._process_audio`
(`emilianoreciver.py` lines 357-370), parametric in the Python `hash`
function `H` (a fixed but unspecified function of the payload bytes) and
in the unspecified element that `set.pop()` removes (`evict`): a packet
whose payload hash is already present is dropped; otherwise the hash is
recorded, an arbitrary element is evicted when the set exceeds ten
entries, and the packet is delivered to the callback. -/
def dispatchPacket (H : List Nat → Int) (evict : List Int → List Int)
    (st : DispatchState) (p : Packet) : DispatchState :=
  let h := H p.data
  if h ∈ st.recent then st
  else
    let r1 := h :: st.recent
    let r2 := if 10 < r1.length then evict r1 else r1
    ⟨r2, st.delivered ++ [p]⟩

/-- Dispatching the same packet `n` times in a row. -/
def dispatchN (H : List Nat → Int) (evict : List Int → List Int)
    (st : DispatchState) (p : Packet) : Nat → DispatchState
  | 0 => st
  | n + 1 => dispatchN H evict (dispatchPacket H evict st p) p n

/-- Preamble length of `asfk_sender.py` line 16 (`PREAMBLE_BITS = 128`). -/
def PREAMBLE_BITS : Nat := 128

/-- `generate_preamble` of `asfk_sender.py` lines 37-42: bit i is '1'
when i is even, '0' when odd. -/
def generate_preamble : List Nat :=
  (List.range PREAMBLE_BITS).map (fun i => if i % 2 = 0 then 1 else 0)

/-- `START_MARKER = '10101010' * 8` of `asfk_sender.py` line 17. -/
def START_MARKER : List Nat :=
  List.flatten (List.replicate 8 [1, 0, 1, 0, 1, 0, 1, 0])

/-! Helper lemmas shared by the claim theorems. -/

theorem bfind_cons_self (l : List Nat) (v : Nat) : bfind (v :: l) v = some 0 := by
  simp [bfind]

theorem bfind_append_last {l : List Nat} {v : Nat} (h : ∀ x ∈ l, x ≠ v) :
    bfind (l ++ [v]) v = some l.length := by
  induction l with
  | nil => simp [bfind]
  | cons b rest ih =>
    have hb : b ≠ v := h b (by simp)
    have ih2 := ih (fun x hx => h x (by simp [hx]))
    simp only [List.cons_append, bfind, List.append_eq, if_neg hb, ih2,
      List.length_cons]
    rfl

theorem take_length_append (l l' : List Nat) : (l ++ l').take l.length = l := by
  induction l with
  | nil => simp
  | cons b rest ih => simp [ih]

theorem drop_length_append (l l' : List Nat) : (l ++ l').drop l.length = l' := by
  induction l with
  | nil => simp
  | cons b rest ih => simp [ih]

theorem stuff_ne_flag (l : List Nat) : ∀ x ∈ stuff l, x ≠ END_FLAG_VALUE := by
  induction l with
  | nil => simp [stuff]
  | cons b rest ih =>
    intro x hx
    by_cases hb : b = START_FLAG_VALUE ∨ b = END_FLAG_VALUE ∨ b = ESCAPE_VALUE
    · rw [stuff, if_pos hb] at hx
      simp only [List.mem_cons] at hx
      rcases hx with hx | hx | hx
      · rw [hx]; decide
      · rcases hb with hb | hb | hb <;> rw [hx, hb] <;> decide
      · exact ih x hx
    · rw [stuff, if_neg hb] at hx
      simp only [List.mem_cons] at hx
      rcases hx with hx | hx
      · rw [hx]; intro hc; exact hb (Or.inr (Or.inl hc))
      · exact ih x hx

theorem unstuff_cons_escape (c : Nat) (rest : List Nat) :
    unstuff (ESCAPE_VALUE :: c :: rest)
      = (unstuff rest).map (fun t => (c ^^^ ESCAPE_MASK) :: t) := by
  simp [unstuff]

theorem unstuff_cons_other {b : Nat} (hb : b ≠ ESCAPE_VALUE) (rest : List Nat) :
    unstuff (b :: rest) = (unstuff rest).map (fun t => b :: t) := by
  cases rest with
  | nil => simp [unstuff, hb]
  | cons c r => simp [unstuff, hb]

theorem unstuff_stuff (l : List Nat) : unstuff (stuff l) = some l := by
  induction l with
  | nil => rfl
  | cons b rest ih =>
    by_cases hb : b = START_FLAG_VALUE ∨ b = END_FLAG_VALUE ∨ b = ESCAPE_VALUE
    · rw [stuff, if_pos hb, unstuff_cons_escape, ih]
      have hx : b ^^^ ESCAPE_MASK ^^^ ESCAPE_MASK = b := by
        rw [Nat.xor_assoc, Nat.xor_self, Nat.xor_zero]
      simp [hx]
    · have hbe : b ≠ ESCAPE_VALUE := fun hc => hb (Or.inr (Or.inr hc))
      rw [stuff, if_neg hb, unstuff_cons_other hbe, ih]
      rfl

theorem validateRegionE_ok (region : List Nat) :
    validateRegionE region = Except.ok (validateRegion region) := by
  unfold validateRegionE validateRegion
  by_cases h4 : region.length < 4
  · simp [h4]
  · have hp : 2 ≤ (region.take (region.length - 2)).length := by
      rw [List.length_take]
      omega
    rw [if_neg h4, if_neg h4]
    by_cases hcrc : crc16_xmodem (region.take (region.length - 2))
        = beInt (region.drop (region.length - 2))
    · simp only [if_pos hcrc, if_pos hp]
    · simp only [if_neg hcrc]

/-- C1 (round-trip): decoding the scanned encoding of
(id, type, payload) recovers the original id, type, and payload exactly,
for every payload of length 0 to 250 bytes and every id/type byte
value.  The encoder is modelled from the spec (no encoder exists in the
source); the decoder is `Packet.decode` of `emilianoreciver.py`. -/
theorem c1_encode_decode_round_trip (pid ptype : Nat) (payload : List Nat)
    (hpid : pid < 256) (hptype : ptype < 256)
    (hlen : payload.length ≤ 250) (hbytes : ∀ b ∈ payload, b < 256) :
    Packet.decode (encode pid ptype payload) = some ⟨payload, pid, ptype⟩ := by
  have hcrcsum : crc16_xmodem (pid :: ptype :: payload) / 256 * 256
      + crc16_xmodem (pid :: ptype :: payload) % 256
      = crc16_xmodem (pid :: ptype :: payload) := by omega
  unfold encode
  simp only []
  rw [Packet.decode]
  rw [bfind_cons_self]
  rw [Option.some_bind]
  simp only [List.drop_succ_cons, List.drop_zero]
  rw [bfind_append_last (stuff_ne_flag _)]
  rw [Option.some_bind]
  rw [take_length_append]
  rw [unstuff_stuff]
  rw [Option.some_bind]
  unfold validateRegion
  have h2 : payload.length + 4 - 2 = (pid :: ptype :: payload).length := by
    simp only [List.length_cons]
    omega
  have hlen4 : ((pid :: ptype :: payload)
      ++ [crc16_xmodem (pid :: ptype :: payload) / 256,
          crc16_xmodem (pid :: ptype :: payload) % 256]).length
      = payload.length + 4 := by
    simp only [List.length_append, List.length_cons, List.length_nil]
    try omega
  rw [hlen4]
  have hnot : ¬ (payload.length + 4 < 4) := by omega
  rw [if_neg hnot]
  have htake : ((pid :: ptype :: payload)
      ++ [crc16_xmodem (pid :: ptype :: payload) / 256,
          crc16_xmodem (pid :: ptype :: payload) % 256]).take (payload.length + 4 - 2)
      = pid :: ptype :: payload := by
    rw [h2, take_length_append]
  have hdrop : ((pid :: ptype :: payload)
      ++ [crc16_xmodem (pid :: ptype :: payload) / 256,
          crc16_xmodem (pid :: ptype :: payload) % 256]).drop (payload.length + 4 - 2)
      = [crc16_xmodem (pid :: ptype :: payload) / 256,
         crc16_xmodem (pid :: ptype :: payload) % 256] := by
    rw [h2, drop_length_append]
  rw [htake, hdrop]
  have hbe : beInt [crc16_xmodem (pid :: ptype :: payload) / 256,
      crc16_xmodem (pid :: ptype :: payload) % 256]
      = crc16_xmodem (pid :: ptype :: payload) := by
    unfold beInt
    simp only [List.foldl]
    omega
  rw [hbe, if_pos rfl]
  unfold Packet.make
  simp only [List.getD_cons_zero, List.getD_cons_succ, List.drop_succ_cons,
    List.drop_zero]
  rw [Nat.mod_eq_of_lt hpid, Nat.mod_eq_of_lt hptype]

set_option maxRecDepth 8192 in
/-- C1 witness: the concrete scenario — packet of id 5, type 1, payload
"HI" encodes to the frame 7E 05 01 48 49 D6 FD 7E (D6 FD being the
CRC-16/XMODEM of 05 01 48 49), and decoding recovers the packet. -/
theorem c1_witness :
    encode 5 1 [0x48, 0x49] = [0x7E, 0x05, 0x01, 0x48, 0x49, 0xD6, 0xFD, 0x7E]
    ∧ Packet.decode (encode 5 1 [0x48, 0x49]) = some ⟨[0x48, 0x49], 5, 1⟩ :=
  ⟨by decide,
   c1_encode_decode_round_trip 5 1 [0x48, 0x49] (by decide) (by decide)
     (by decide) (by decide)⟩

/-- C2 (frame validation): for a byte region of length at least 4, the
validation stage of `Packet.decode` yields a Packet exactly when the
CRC-16/XMODEM over `region[:-2]` equals the big-endian 16-bit integer in
`region[-2:]`; the returned Packet then carries `packet_id = region[0]`,
`packet_type = region[1]` and `data = region[2:-2]`; on mismatch no
Packet is produced. -/
theorem c2_validate_iff_crc (region : List Nat) (h4 : 4 ≤ region.length)
    (hbytes : ∀ b ∈ region, b < 256) :
    ((∃ p, validateRegion region = some p) ↔
        crc16_xmodem (region.take (region.length - 2))
          = beInt (region.drop (region.length - 2)))
    ∧ ∀ p, validateRegion region = some p →
        p.packet_id = region.getD 0 0 ∧ p.packet_type = region.getD 1 0 ∧
        p.data = (region.take (region.length - 2)).drop 2 := by
  obtain ⟨a, t1, rfl⟩ : ∃ a t, region = a :: t := by
    cases region with
    | nil => simp at h4
    | cons a t => exact ⟨a, t, rfl⟩
  obtain ⟨b, t2, rfl⟩ : ∃ b t, t1 = b :: t := by
    cases t1 with
    | nil => simp at h4
    | cons b t => exact ⟨b, t, rfl⟩
  obtain ⟨k, hk⟩ : ∃ k, t2.length = k + 2 := by
    refine ⟨t2.length - 2, ?_⟩
    simp only [List.length_cons] at h4
    omega
  have hsub : (a :: b :: t2).length - 2 = k + 2 := by
    simp only [List.length_cons]
    omega
  have htake : (a :: b :: t2).take ((a :: b :: t2).length - 2)
      = a :: b :: t2.take k := by
    rw [hsub, List.take_succ_cons, List.take_succ_cons]
  have hdrop : (a :: b :: t2).drop ((a :: b :: t2).length - 2) = t2.drop k := by
    rw [hsub, List.drop_succ_cons, List.drop_succ_cons]
  have hlt : ¬ (a :: b :: t2).length < 4 := by
    simp only [List.length_cons]
    omega
  unfold validateRegion
  rw [if_neg hlt, htake, hdrop]
  by_cases hcrc : crc16_xmodem (a :: b :: t2.take k) = beInt (t2.drop k)
  · rw [if_pos hcrc]
    refine ⟨⟨fun _ => hcrc, fun _ => ⟨_, rfl⟩⟩, fun p hp => ?_⟩
    have hp2 := Option.some.inj hp
    rw [← hp2]
    simp only [Packet.make, List.getD_cons_zero, List.getD_cons_succ,
      List.drop_succ_cons, List.drop_zero]
    refine ⟨Nat.mod_eq_of_lt (hbytes a (by simp)),
      Nat.mod_eq_of_lt (hbytes b (by simp)), by trivial⟩
  · rw [if_neg hcrc]
    refine ⟨⟨fun h => ?_, fun h => absurd h hcrc⟩, fun p hp => ?_⟩
    · obtain ⟨p, hp⟩ := h
      simp at hp
    · simp at hp

set_option maxRecDepth 8192 in
/-- C2 witness: the region 05 01 48 49 D6 FD carries a matching CRC, so
a Packet with id 5, type 1 and data 48 49 is produced. -/
theorem c2_witness :
    ((∃ p, validateRegion [5, 1, 72, 73, 0xD6, 0xFD] = some p) ↔
        crc16_xmodem (([5, 1, 72, 73, 0xD6, 0xFD] : List Nat).take
            (([5, 1, 72, 73, 0xD6, 0xFD] : List Nat).length - 2))
          = beInt (([5, 1, 72, 73, 0xD6, 0xFD] : List Nat).drop
            (([5, 1, 72, 73, 0xD6, 0xFD] : List Nat).length - 2)))
    ∧ ∀ p, validateRegion [5, 1, 72, 73, 0xD6, 0xFD] = some p →
        p.packet_id = ([5, 1, 72, 73, 0xD6, 0xFD] : List Nat).getD 0 0
        ∧ p.packet_type = ([5, 1, 72, 73, 0xD6, 0xFD] : List Nat).getD 1 0
        ∧ p.data = (([5, 1, 72, 73, 0xD6, 0xFD] : List Nat).take
            (([5, 1, 72, 73, 0xD6, 0xFD] : List Nat).length - 2)).drop 2 :=
  c2_validate_iff_crc [5, 1, 72, 73, 0xD6, 0xFD] (by decide) (by decide)

theorem unstuff_trailing_escape : ∀ (l t : List Nat),
    unstuff l = some t → unstuff (l ++ [ESCAPE_VALUE]) = none
  | [], _, _ => rfl
  | [b], t, h => by
    have hb : b ≠ ESCAPE_VALUE := by
      intro hc
      subst hc
      simp [unstuff] at h
    show unstuff (b :: [ESCAPE_VALUE]) = none
    rw [unstuff_cons_other hb]
    rfl
  | b :: c :: rest, t, h => by
    by_cases hb : b = ESCAPE_VALUE
    · subst hb
      rw [unstuff_cons_escape] at h
      obtain ⟨t2, ht2, _⟩ := Option.map_eq_some'.mp h
      have ihr := unstuff_trailing_escape rest t2 ht2
      show unstuff (ESCAPE_VALUE :: c :: (rest ++ [ESCAPE_VALUE])) = none
      rw [unstuff_cons_escape, ihr]
      rfl
    · rw [unstuff_cons_other hb] at h
      obtain ⟨t2, ht2, _⟩ := Option.map_eq_some'.mp h
      have ihr := unstuff_trailing_escape (c :: rest) t2 ht2
      show unstuff (b :: ((c :: rest) ++ [ESCAPE_VALUE])) = none
      rw [unstuff_cons_other hb, ihr]
      rfl

/-- C3 (un-stuffing): an ESCAPE byte makes the next byte be appended
xor-ed with ESCAPE_MASK with the scan advancing two bytes; non-escape
bytes are copied unchanged; an ESCAPE as the final byte is malformed and
yields no packet; and the wire pair 7D 5E reconstructs the single byte
7E. -/
theorem c3_unstuffing_rules :
    (∀ c rest, unstuff (ESCAPE_VALUE :: c :: rest)
        = (unstuff rest).map (fun t => (c ^^^ ESCAPE_MASK) :: t))
    ∧ (∀ b rest, b ≠ ESCAPE_VALUE →
        unstuff (b :: rest) = (unstuff rest).map (fun t => b :: t))
    ∧ (∀ l t, unstuff l = some t → unstuff (l ++ [ESCAPE_VALUE]) = none)
    ∧ Packet.decode [START_FLAG_VALUE, 5, ESCAPE_VALUE, END_FLAG_VALUE] = none
    ∧ unstuff [ESCAPE_VALUE, 0x5E] = some [START_FLAG_VALUE] :=
  ⟨unstuff_cons_escape, fun _ rest hb => unstuff_cons_other hb rest,
   unstuff_trailing_escape, by decide, by decide⟩

/-- C3 witness: a non-escape byte is copied unchanged ahead of the rest. -/
theorem c3_witness : unstuff [7, 8] = (unstuff [8]).map (fun t => 7 :: t) :=
  c3_unstuffing_rules.2.1 7 [8] (by decide)

/-- C4 (decode totality): on every input byte string whatsoever the
decoder terminates and yields `ok` of an optional Packet — the
exception-tracking model `decodeE` never reaches an error state, so
decoding never raises. -/
theorem c4_decode_total_no_raise (raw : List Nat) :
    decodeE raw = Except.ok (Packet.decode raw) := by
  unfold decodeE Packet.decode
  cases h1 : bfind raw START_FLAG_VALUE with
  | none => rfl
  | some s =>
    simp only [Option.some_bind]
    cases h2 : bfind (raw.drop (s + 1)) END_FLAG_VALUE with
    | none => rfl
    | some e =>
      simp only [Option.some_bind]
      cases h3 : unstuff ((raw.drop (s + 1)).take e) with
      | none => rfl
      | some region =>
        simp only [Option.some_bind]
        exact validateRegionE_ok region

/-- C5 amended: when the first frame candidate (first START_FLAG to the
next flag byte) is malformed — broken escape sequence, region shorter
than 4 bytes, or CRC mismatch — `Packet.decode` returns `none` for the
whole buffer; scanning does not resume from the next START_FLAG within
the same call. -/
theorem c5_no_rescan_on_malformed (raw : List Nat) (s e : Nat)
    (hs : bfind raw START_FLAG_VALUE = some s)
    (he : bfind (raw.drop (s + 1)) END_FLAG_VALUE = some e)
    (hbad : unstuff ((raw.drop (s + 1)).take e) = none ∨
        ∃ r, unstuff ((raw.drop (s + 1)).take e) = some r
          ∧ validateRegion r = none) :
    Packet.decode raw = none := by
  unfold Packet.decode
  rw [hs, Option.some_bind, he, Option.some_bind]
  rcases hbad with hbad | ⟨r, hr, hv⟩
  · rw [hbad]
    rfl
  · rw [hr, Option.some_bind, hv]

set_option maxRecDepth 8192 in
/-- C5 counterexample: a buffer whose first frame candidate is malformed
(region 00, shorter than 4 bytes) but which contains a complete
well-formed frame right after it decodes to `none`: the later frame is
not found, contradicting resume-from-next-START_FLAG scanning. -/
theorem c5_counterexample :
    Packet.decode ([0x7E, 0x00] ++ [0x7E, 5, 1, 72, 73, 0xD6, 0xFD, 0x7E])
      = none
    ∧ Packet.decode [0x7E, 5, 1, 72, 73, 0xD6, 0xFD, 0x7E]
      = some ⟨[72, 73], 5, 1⟩ :=
  ⟨by decide, by decide⟩

set_option maxRecDepth 8192 in
/-- C5 witness: the amended no-rescan behavior at the concrete buffer of
the counterexample. -/
theorem c5_witness :
    Packet.decode [0x7E, 0x00, 0x7E, 5, 1, 72, 73, 0xD6, 0xFD, 0x7E] = none :=
  c5_no_rescan_on_malformed _ 0 1 (by decide) (by decide)
    (Or.inr ⟨[0], by decide, by decide⟩)

/-- C6 counterexample: a chunk whose two band energies are both zero —
total energy 0, below the 0.008 noise floor — still produces a bit (0,
the Space symbol) whenever the buffer-level power gate passes: the code
has no per-energy-pair Indeterminate outcome. -/
theorem c6_counterexample :
    (0 : ℚ) + 0 < NOISE_FLOOR
    ∧ extractBits NOISE_FLOOR NOISE_FLOOR [(0, 0)] = some [0] := by
  constructor
  · norm_num [NOISE_FLOOR]
  · norm_num [extractBits, bitOfEnergies, NOISE_FLOOR]

/-- C6 amended: the per-chunk classifier emits Mark (bit 1) exactly when
the mark energy strictly exceeds the space energy and Space (bit 0)
otherwise — an exact tie resolves to Space; there is no per-pair
Indeterminate: every chunk of a processed cycle yields a symbol, and the
noise floor gates only the whole buffer (mean power below floor emits no
bits at all for that cycle). -/
theorem c6_amended (signalPower noiseFloor markE spaceE : ℚ)
    (chunks : List (ℚ × ℚ)) :
    (signalPower < noiseFloor →
        extractBits signalPower noiseFloor chunks = none)
    ∧ (¬ signalPower < noiseFloor →
        extractBits signalPower noiseFloor chunks
          = some (chunks.map (fun c => bitOfEnergies c.1 c.2)))
    ∧ (bitOfEnergies markE spaceE = 1 ↔ spaceE < markE)
    ∧ (markE = spaceE → bitOfEnergies markE spaceE = 0)
    ∧ ∀ out, extractBits signalPower noiseFloor chunks = some out →
        out.length = chunks.length := by
  refine ⟨fun h => ?_, fun h => ?_, ?_, fun h => ?_, fun out h => ?_⟩
  · unfold extractBits
    rw [if_pos h]
  · unfold extractBits
    rw [if_neg h]
  · unfold bitOfEnergies
    by_cases hms : markE > spaceE
    · rw [if_pos hms]
      exact iff_of_true rfl hms
    · rw [if_neg hms]
      exact iff_of_false (by decide) hms
  · unfold bitOfEnergies
    subst h
    rw [if_neg (lt_irrefl markE)]
  · unfold extractBits at h
    by_cases hg : signalPower < noiseFloor
    · rw [if_pos hg] at h
      exact absurd h (by simp)
    · rw [if_neg hg] at h
      rw [← Option.some.inj h, List.length_map]

/-- C6 witness: a cycle whose buffer power 0.004 is below the 0.008
floor emits no bits. -/
theorem c6_witness :
    extractBits (1 / 250 : ℚ) NOISE_FLOOR [((1 : ℚ), (2 : ℚ))] = none :=
  (c6_amended (1 / 250) NOISE_FLOOR 1 2 [(1, 2)]).1 (by norm_num [NOISE_FLOOR])

/-- C7 counterexample: a reachable two-step trace of the noise-floor
logic of `afsk_receiver.py` in which the automatic adjustment raises the
floor: from the default 0.003, a loud signal (mean power 0.1) acquired at
t = 6 and still undecoded at t = 17 reassigns the floor to 0.08 > 0.003. -/
theorem c7_counterexample :
    (floorStep (floorStep ⟨AFSK_NOISE_FLOOR, false, 0, 0⟩ 6 (1 / 10))
        17 (1 / 10)).noise_floor
      > (floorStep ⟨AFSK_NOISE_FLOOR, false, 0, 0⟩ 6 (1 / 10)).noise_floor := by
  norm_num [floorStep, AFSK_NOISE_FLOOR]

/-- C7 amended: one pass of the automatic noise-floor logic either
leaves the floor unchanged or reassigns it to 0.8 times the measured
signal power; the reassignment is a decrease only when 0.8·power is at
most the current floor — the adjustment is not monotone downward in
general. -/
theorem c7_amended (st : RxState) (t power : ℚ) :
    ((floorStep st t power).noise_floor = st.noise_floor
      ∨ (floorStep st t power).noise_floor = power * (8 / 10))
    ∧ (power * (8 / 10) ≤ st.noise_floor →
        (floorStep st t power).noise_floor ≤ st.noise_floor) := by
  constructor
  · simp only [floorStep]
    split_ifs <;> simp
  · intro hle
    simp only [floorStep]
    split_ifs <;> simp [hle]

/-- C7 witness: with zero measured power the adjustment can only keep or
lower the floor. -/
theorem c7_witness :
    ((floorStep ⟨AFSK_NOISE_FLOOR, false, 0, 0⟩ 3 0).noise_floor
        = AFSK_NOISE_FLOOR
      ∨ (floorStep ⟨AFSK_NOISE_FLOOR, false, 0, 0⟩ 3 0).noise_floor
        = 0 * (8 / 10))
    ∧ (0 * (8 / 10) ≤ AFSK_NOISE_FLOOR →
        (floorStep ⟨AFSK_NOISE_FLOOR, false, 0, 0⟩ 3 0).noise_floor
          ≤ AFSK_NOISE_FLOOR) :=
  c7_amended ⟨AFSK_NOISE_FLOOR, false, 0, 0⟩ 3 0

theorem dispatchPacket_mem {H : List Nat → Int} {evict : List Int → List Int}
    {st : DispatchState} {p : Packet} (h : H p.data ∈ st.recent) :
    dispatchPacket H evict st p = st := by
  unfold dispatchPacket
  rw [if_pos h]

theorem dispatchN_mem (H : List Nat → Int) (evict : List Int → List Int)
    (st : DispatchState) (p : Packet) (h : H p.data ∈ st.recent) :
    ∀ n, dispatchN H evict st p n = st
  | 0 => rfl
  | n + 1 => by
    show dispatchN H evict (dispatchPacket H evict st p) p n = st
    rw [dispatchPacket_mem h]
    exact dispatchN_mem H evict st p h n

theorem dispatchPacket_new {H : List Nat → Int} {evict : List Int → List Int}
    {st : DispatchState} {p : Packet} (hcap : st.recent.length ≤ 9)
    (hnew : H p.data ∉ st.recent) :
    dispatchPacket H evict st p
      = ⟨H p.data :: st.recent, st.delivered ++ [p]⟩ := by
  have hlen : ¬ 10 < (H p.data :: st.recent).length := by
    simp only [List.length_cons]
    omega
  simp only [dispatchPacket]
  rw [if_neg hnew, if_neg hlen]

/-- C8 counterexample: dispatching the same packet twice starting from a
recent set that already contains the packet's payload hash — a state
with one entry, well within capacity — delivers zero times, not exactly
once: the first dispatch does not deliver. -/
theorem c8_counterexample :
    (([0] : List Int).length ≤ 10)
    ∧ (dispatchN (fun _ => 0) (fun l => l.drop 1)
        ⟨[0], []⟩ ⟨[72, 73], 5, 1⟩ 2).delivered.length = 0 :=
  ⟨by decide, rfl⟩

/-- C8 amended: dispatching the same valid packet N ≥ 1 times in a row,
starting from any recent-set state strictly below capacity (at most 9
entries) that does not yet contain the packet's payload hash, results in
exactly one delivery — the first dispatch delivers and appends the
packet once, every later identical dispatch is silently dropped — for
every hash function and every eviction choice. -/
theorem c8_exactly_one_delivery (H : List Nat → Int)
    (evict : List Int → List Int) (st : DispatchState) (p : Packet) (n : Nat)
    (hcap : st.recent.length ≤ 9) (hnew : H p.data ∉ st.recent)
    (hn : 1 ≤ n) :
    (dispatchN H evict st p n).delivered = st.delivered ++ [p] := by
  obtain ⟨m, rfl⟩ : ∃ m, n = m + 1 := ⟨n - 1, by omega⟩
  show (dispatchN H evict (dispatchPacket H evict st p) p m).delivered = _
  rw [dispatchPacket_new hcap hnew]
  rw [dispatchN_mem H evict _ p (by simp) m]

/-- C8 witness: three identical dispatches from an empty state deliver
exactly once. -/
theorem c8_witness :
    (dispatchN (fun l => (beInt l : Int)) (fun l => l.drop 1)
        ⟨[], []⟩ ⟨[72, 73], 5, 1⟩ 3).delivered
      = ([] : List Packet) ++ [⟨[72, 73], 5, 1⟩] :=
  c8_exactly_one_delivery _ _ ⟨[], []⟩ ⟨[72, 73], 5, 1⟩ 3 (by decide)
    (by simp) (by decide)

/-- C10 (deduplication ignores the header): the duplicate check keys on
the hash of the payload bytes only, so a second validated packet with
identical payload but different id or type, dispatched while the first
packet's hash is still in the recent set, is dropped and never reaches
the consumer. -/
theorem c10_dedup_ignores_header (H : List Nat → Int)
    (evict : List Int → List Int) (st : DispatchState) (p1 p2 : Packet)
    (hcap : st.recent.length ≤ 9) (hnew : H p1.data ∉ st.recent)
    (hdata : p1.data = p2.data)
    (hdiff : p1.packet_id ≠ p2.packet_id ∨ p1.packet_type ≠ p2.packet_type)
    (hnotyet : p2 ∉ st.delivered) :
    (dispatchPacket H evict (dispatchPacket H evict st p1) p2).delivered
      = st.delivered ++ [p1]
    ∧ p2 ∉ (dispatchPacket H evict
        (dispatchPacket H evict st p1) p2).delivered := by
  have hmem : H p2.data
      ∈ (⟨H p1.data :: st.recent, st.delivered ++ [p1]⟩ : DispatchState).recent := by
    rw [← hdata]
    exact List.mem_cons_self _ _
  rw [dispatchPacket_new hcap hnew, dispatchPacket_mem hmem]
  have hne : p2 ≠ p1 := by
    intro hc
    rcases hdiff with hd | hd <;> exact hd (by rw [hc])
  refine ⟨rfl, fun hmem2 => ?_⟩
  rcases List.mem_append.mp hmem2 with hm | hm
  · exact hnotyet hm
  · exact hne (List.mem_singleton.mp hm)

/-- C10 witness: payload 48 49 delivered under id 5 type 1; the same
payload under id 6 type 1 is dropped. -/
theorem c10_witness :
    (dispatchPacket (fun _ => (0 : Int)) (fun l => l.drop 1)
        (dispatchPacket (fun _ => (0 : Int)) (fun l => l.drop 1)
          ⟨[], []⟩ ⟨[72, 73], 5, 1⟩) ⟨[72, 73], 6, 1⟩).delivered
      = ([] : List Packet) ++ [⟨[72, 73], 5, 1⟩]
    ∧ (⟨[72, 73], 6, 1⟩ : Packet) ∉ (dispatchPacket (fun _ => (0 : Int))
        (fun l => l.drop 1) (dispatchPacket (fun _ => (0 : Int))
          (fun l => l.drop 1) ⟨[], []⟩ ⟨[72, 73], 5, 1⟩)
        ⟨[72, 73], 6, 1⟩).delivered :=
  c10_dedup_ignores_header _ _ ⟨[], []⟩ ⟨[72, 73], 5, 1⟩ ⟨[72, 73], 6, 1⟩
    (by decide) (by simp) rfl (Or.inl (by decide)) (by simp)

set_option maxRecDepth 8192 in
/-- C9 counterexample: START_MARKER is itself an alternating bit pattern
and occurs inside the transmitter's preamble (indeed as its 64-bit
prefix), refuting the claim that the preamble contains no occurrence of
the start-marker pattern. -/
theorem c9_counterexample : START_MARKER <:+: generate_preamble :=
  ⟨[], List.drop 64 generate_preamble, by decide⟩

set_option maxRecDepth 8192 in
/-- C9 amended: the generated preamble is a strictly alternating run of
128 Mark/Space bits starting with Mark, but it does contain the
start-marker bit pattern: START_MARKER, itself alternating, is exactly
the preamble's 64-bit prefix. -/
theorem c9_amended :
    generate_preamble.length = PREAMBLE_BITS
    ∧ (generate_preamble.zip generate_preamble.tail).all (fun q => q.1 != q.2)
      = true
    ∧ generate_preamble.take 64 = START_MARKER :=
  ⟨by decide, by decide, by decide⟩

end AfskProto
